import Mathlib

/-!
Verification of the nuphar execution-provider subgraph-compilation pipeline.

The definitions below are a shallow embedding of:
* `VectorWidthAndFuseDimForReduce` and `FuncReduceV::operator()` from
  `core/providers/nuphar/compiler/x86/op_ir_creator/math/reduce_ops.cc`;
* `NupharExecutionProvider` construction (target resolution),
  `GetCapability`, `SaveInitializer` and `Compile` from
  `core/providers/nuphar/nuphar_execution_provider.cc`.

A tensor shape is a list of dimensions, outermost first; `some v` is a
statically known extent and `none` a symbolic (unknown) extent, matching
`ShapeHasValue` / `ShapeValue` on a `NodeArg`.
-/

/-- Shape of a `NodeArg`: one entry per dimension, outermost first. -/
abbrev Shape := List (Option Nat)

/-- The `reduce all` loop of `VectorWidthAndFuseDimForReduce` (axes empty):
`for (int i = rank - 1; i >= 0; --i)` accumulating `tail_size`.  The first
argument of the recursion is the current loop index `i`, the second the
current `tail_size`. -/
def reduceAllGo (nw : Nat) (shape : Shape) : Nat → Nat → Nat × Nat
  | 0, tail =>
    match shape.getD 0 none with
    | some v =>
      let t := tail * v
      if nw ≤ t then (nw, 0) else (t, 0)
    | none => (nw, 0)
  | i + 1, tail =>
    match shape.getD (i + 1) none with
    | some v =>
      let t := tail * v
      if nw ≤ t then (nw, i + 1) else reduceAllGo nw shape i t
    | none => (tail, i)

/-- The `reduce last` loop of `VectorWidthAndFuseDimForReduce`
(`axes.back() == rank - 1`): accumulate only while the current dimension is
statically known and equals the current reduction axis `axes[j]`;
`j` decreases (stopping at `0`) each time a dimension is consumed. -/
def reduceLastGo (nw : Nat) (shape : Shape) (axes : List Int) :
    Nat → Nat → Nat → Nat × Nat
  | 0, j, tail =>
    match shape.getD 0 none with
    | some v =>
      if axes.getD j 0 = (0 : Int) then
        let t := tail * v
        if nw ≤ t then (nw, 0) else (t, 0)
      else (nw, 0)
    | none => (nw, 0)
  | i + 1, j, tail =>
    match shape.getD (i + 1) none with
    | some v =>
      if axes.getD j 0 = ((i + 1 : Nat) : Int) then
        let t := tail * v
        let j2 := if 0 < j then j - 1 else j
        if nw ≤ t then (nw, i + 1) else reduceLastGo nw shape axes i j2 t
      else (tail, i)
    | none => (tail, i)

/-- The `reduce other` loop of `VectorWidthAndFuseDimForReduce` (innermost
dimension not reduced): accumulate only while the current dimension is
statically known and differs from the current reduction axis `axes[j]`. -/
def reduceOtherGo (nw : Nat) (shape : Shape) (axes : List Int) :
    Nat → Nat → Nat → Nat × Nat
  | 0, j, tail =>
    match shape.getD 0 none with
    | some v =>
      if axes.getD j 0 ≠ (0 : Int) then
        let t := tail * v
        if nw ≤ t then (nw, 0) else (t, 0)
      else (nw, 0)
    | none => (nw, 0)
  | i + 1, j, tail =>
    match shape.getD (i + 1) none with
    | some v =>
      if axes.getD j 0 ≠ ((i + 1 : Nat) : Int) then
        let t := tail * v
        let j2 := if 0 < j then j - 1 else j
        if nw ≤ t then (nw, i + 1) else reduceOtherGo nw shape axes i j2 t
      else (tail, i)
    | none => (tail, i)

/-- `VectorWidthAndFuseDimForReduce(natural_width, axes, def)` from
`reduce_ops.cc`: returns `(vector_width, fuse_dim)`.  Rank `0` yields
`(1, 0)`; otherwise one of the three walks runs from the innermost
dimension (`rank - 1`) outward with `tail_size = 1`. -/
def VectorWidthAndFuseDimForReduce (nw : Nat) (axes : List Int) (shape : Shape) :
    Nat × Nat :=
  if shape.length = 0 then (1, 0)
  else if axes.length = 0 then
    reduceAllGo nw shape (shape.length - 1) 1
  else if axes.getLastD 0 = ((shape.length - 1 : Nat) : Int) then
    reduceLastGo nw shape axes (shape.length - 1) (axes.length - 1) 1
  else
    reduceOtherGo nw shape axes (shape.length - 1) (axes.length - 1) 1

/-- `HandleNegativeAxis(axis, tensor_rank)` from `core/providers/common.h`:
a negative axis is shifted by the rank. -/
def HandleNegativeAxis (axis rank : Int) : Int :=
  if axis < 0 then axis + rank else axis

/-- The plan computed by `FuncReduceV::operator()`: the constructor sorts the
`axes` attribute, the call operator maps `HandleNegativeAxis` over it, runs
`VectorWidthAndFuseDimForReduce`, and sets `last_dim_aligned` to true exactly
when the innermost extent is a static constant divisible by the chosen
`vector_width`.  Returns `(vector_width, fuse_dim, last_dim_aligned)`. -/
def FuncReduceVPlan (nw : Nat) (axesAttr : List Int) (shape : Shape) :
    Nat × Nat × Bool :=
  let sorted := List.insertionSort (· ≤ ·) axesAttr
  let axes := sorted.map (fun a => HandleNegativeAxis a (shape.length : Int))
  let p := VectorWidthAndFuseDimForReduce nw axes shape
  let la :=
    match shape.getLastD none with
    | some v => decide (v % p.1 = 0)
    | none => false
  (p.1, p.2, la)

/-- Product of the statically known values in the longest all-known prefix of
a dimension list; stops at the first unknown dimension. -/
def knownPrefixProduct : List (Option Nat) → Nat
  | [] => 1
  | none :: _ => 1
  | some v :: rest => v * knownPrefixProduct rest

/-- Spec-side yardstick: the product of the statically-known contiguous tail
extents of a shape (the maximal all-known suffix, innermost dimensions). -/
def staticContiguousTailProduct (shape : Shape) : Nat :=
  knownPrefixProduct shape.reverse

/-- Result of target resolution in the `NupharExecutionProvider` constructor:
either one of the two SIMD descriptors, the `CodeGenTargetX86` baseline built
when LLVM auto-detection finds no SIMD feature, or a generic `CodeGenTarget`
built directly from the configuration string. -/
inductive CodeGenTargetKind
  | avx512
  | avx2
  | baselineX86 (name : String)
  | generic (name : String)
deriving DecidableEq

/-- Modelled from the spec: the configuration value naming the llvm
auto-detect profile ("auto-probe highest supported SIMD feature level");
the constant itself lives in a nuphar header outside the sources. -/
def llvm_target_str : String := "llvm"

/-- Modelled from the spec: the configuration value naming the portable
baseline ("if no native code-generation path exists"); the constant itself
lives in a nuphar header outside the sources. -/
def stackvm_target_str : String := "stackvm"

/-- Modelled from the spec: the default profile used when no explicit
configuration string is present is the llvm auto-detect profile. -/
def default_nuphar_target_str : String := llvm_target_str

/-- Target resolution performed by the `NupharExecutionProvider` constructor:
the explicit configuration string if present (default otherwise), then the
branch chain over `llvm` (CPU-ID auto-detect using the two probed feature
bits), `avx2`, `avx512`, any other non-`stackvm` string (generic target), and
finally the fatal `ORT_NOT_IMPLEMENTED` for `stackvm`, modelled as `.error`. -/
def resolveCodeGenTarget (option_target : Option String)
    (hasAVX512f hasAVX2 : Bool) : Except String CodeGenTargetKind :=
  let explicit := option_target.getD ""
  let target_str := if explicit = "" then default_nuphar_target_str else explicit
  if target_str = llvm_target_str then
    .ok (if hasAVX512f then .avx512
         else if hasAVX2 then .avx2
         else .baselineX86 target_str)
  else if target_str = "avx2" then .ok .avx2
  else if target_str = "avx512" then .ok .avx512
  else if target_str ≠ stackvm_target_str then .ok (.generic target_str)
  else .error "Not supported target, should be one of stackvm/llvm/avx2/avx512."

/-- Payload of an ONNX `TensorProto`: either the `raw_data` byte blob (the
raw-data path of `UnpackTensor`) or a typed repeated field, modelled as the
list of its elements. -/
inductive ProtoData
  | raw (bytes : List Nat)
  | typed (values : List Int)
deriving DecidableEq

/-- The fields of an ONNX `TensorProto` that `SaveInitializer` reads:
`data_type()`, `dims()` and the payload. -/
structure TensorProto where
  data_type : Nat
  dims : List Int
  data : ProtoData
deriving DecidableEq

/-- Element byte-size of the tensor element types handled by the `switch` in
`SaveInitializer` (`CASE_UNPACK_TENSOR`); `none` for any other
`data_type`, which hits the fatal `ORT_NOT_IMPLEMENTED` default. -/
def elementSize : Nat → Option Nat
  | 1 => some 4    -- FLOAT
  | 2 => some 1    -- UINT8
  | 3 => some 1    -- INT8
  | 4 => some 2    -- UINT16
  | 5 => some 2    -- INT16
  | 6 => some 4    -- INT32
  | 7 => some 8    -- INT64
  | 9 => some 1    -- BOOL
  | 10 => some 2   -- FLOAT16
  | 11 => some 8   -- DOUBLE
  | 12 => some 4   -- UINT32
  | 13 => some 8   -- UINT64
  | _ => none

/-- `TensorShape::Size()`: the product of the dimensions. -/
def shapeSize (dims : List Int) : Int :=
  dims.foldl (fun a d => a * d) 1

/-- An owned tensor in the provider's initializer store, as built by
`SaveInitializer` from a `TensorProto`. -/
structure TensorValue where
  data_type : Nat
  dims : List Int
  data : ProtoData
deriving DecidableEq

/-- Association-list lookup keyed by name, mirroring `unordered_map::find`
(keys are unique because insertion happens only when absent). -/
def lookupName {β : Type} : List (String × β) → String → Option β
  | [], _ => none
  | (k, b) :: t, d => if d = k then some b else lookupName t d

/-- `NupharExecutionProvider::SaveInitializer(name, proto)`: if the name is
already present the body is skipped entirely and `Status::OK()` is returned;
otherwise the tensor is unpacked (fatal `ORT_NOT_IMPLEMENTED` on an
unsupported `data_type`; `UnpackTensor` error statuses on a size mismatch
between the payload and `shape.Size()`) and the owned copy is stored. -/
def SaveInitializer (store : List (String × TensorValue)) (name : String)
    (proto : TensorProto) : Except String (List (String × TensorValue)) :=
  if (lookupName store name).isSome then .ok store
  else
    match elementSize proto.data_type with
    | none => .error "Unimplemented type"
    | some esz =>
      match proto.data with
      | .raw bytes =>
        if (bytes.length : Int) = shapeSize proto.dims * (esz : Int) then
          .ok ((name, ⟨proto.data_type, proto.dims, proto.data⟩) :: store)
        else
          .error "UnpackTensor: the pre-allocated size does not match the raw data size"
      | .typed vals =>
        if (vals.length : Int) = shapeSize proto.dims then
          .ok ((name, ⟨proto.data_type, proto.dims, proto.data⟩) :: store)
        else
          .error "corrupted protobuf data: tensor shape size does not match the data size in proto"

/-- The domain-version recording loop at the top of `GetCapability`: the first
version seen for a domain is emplaced; a later different version for the same
domain trips `ORT_ENFORCE`, modelled as `.error`. -/
def updateDomainVersions :
    List (String × Nat) → List (String × Nat) → Except String (List (String × Nat))
  | dv, [] => .ok dv
  | dv, (d, v) :: rest =>
    match lookupName dv d with
    | none => updateDomainVersions (dv ++ [(d, v)]) rest
    | some v2 =>
      if v2 = v then updateDomainVersions dv rest
      else .error "Inconsistent domain_to_opset_map in Nuphar provider."

/-- The mutable state of a `NupharExecutionProvider` instance that
`GetCapability` touches: the domain-to-opset map and the initializer store. -/
structure ProviderState where
  domain_versions : List (String × Nat)
  constant_initializers : List (String × TensorValue)
deriving DecidableEq

/-- `Status::IsOK()` of a modelled call. -/
def StatusIsOK {α : Type} : Except String α → Bool
  | .ok _ => true
  | .error _ => false

/-- `NupharExecutionProvider::GetCapability`: if whole-graph shape inference
failed, returns the empty capability list at once (a normal return, not an
error).  Otherwise it records the graph's domain versions, partitions the
graph (the partitioner is an external collaborator here: its output, the
claimed node-index sets, is passed in), and saves every constant initializer
referenced by a fused node (`ORT_ENFORCE(SaveInitializer(...).IsOK())`, so a
failing save propagates as an error). -/
def GetCapability (st : ProviderState) (shapeInferOk : Bool)
    (graphDomainVersions : List (String × Nat))
    (fusedInitializers : List (String × TensorProto))
    (partitionResult : List (List Nat)) :
    Except String (ProviderState × List (List Nat)) :=
  if !shapeInferOk then .ok (st, [])
  else
    match updateDomainVersions st.domain_versions graphDomainVersions with
    | .error e => .error e
    | .ok dv =>
      match fusedInitializers.foldlM
          (fun s p => SaveInitializer s p.1 p.2) st.constant_initializers with
      | .error e => .error e
      | .ok store => .ok (⟨dv, store⟩, partitionResult)

/-- Initialization of the thread-local subgraph-id counter:
`thread_local int64_t NupharSubgraphUnit::counter = 0;`. -/
def counterInit : Nat := 0

/-- Modelled from the spec: during a compilation pass each descriptor draws
its stable identifier from the thread-local counter, which advances once per
descriptor (the drawing itself happens in nuphar code outside the sources). -/
def assignSubgraphIds (counter : Nat) (n : Nat) : List Nat × Nat :=
  ((List.range n).map (fun k => counter + k), counter + n)

/-- One `NupharExecutionProvider::Compile` pass over `n` fused nodes: the ids
handed out during the pass, and the counter value after the pass — the last
statement of `Compile` is `NupharSubgraphUnit::counter = 0`. -/
def CompilePass (counter : Nat) (n : Nat) : List Nat × Nat :=
  ((assignSubgraphIds counter n).1, 0)

theorem knownPrefixProduct_pos :
    ∀ l : List (Option Nat), (∀ k, some k ∈ l → 1 ≤ k) → 0 < knownPrefixProduct l
  | [], _ => by simp [knownPrefixProduct]
  | none :: t, _ => by simp [knownPrefixProduct]
  | some v :: t, h => by
    have hv : 1 ≤ v := h v (by simp)
    have ht : 0 < knownPrefixProduct t :=
      knownPrefixProduct_pos t (fun k hk => h k (List.mem_cons_of_mem _ hk))
    simpa [knownPrefixProduct] using Nat.mul_pos hv ht

theorem sCTP_pos (l : Shape) (h : ∀ k, some k ∈ l → 1 ≤ k) :
    0 < staticContiguousTailProduct l :=
  knownPrefixProduct_pos l.reverse (fun k hk => h k (List.mem_reverse.mp hk))

theorem sCTP_append_some (l : Shape) (v : Nat) :
    staticContiguousTailProduct (l ++ [some v]) =
      v * staticContiguousTailProduct l := by
  simp [staticContiguousTailProduct, List.reverse_append, knownPrefixProduct]

theorem getD_eq_some (l : Shape) (i : Nat) (v : Nat)
    (h : l.getD i none = some v) : l[i]? = some (some v) := by
  rw [List.getD_eq_getElem?_getD] at h
  cases hh : l[i]? with
  | none => simp [hh] at h
  | some o => simp only [hh, Option.getD_some] at h; simp [hh, h]

theorem sCTP_take_succ (l : Shape) (i v : Nat) (h : l.getD i none = some v) :
    staticContiguousTailProduct (l.take (i + 1)) =
      v * staticContiguousTailProduct (l.take i) := by
  have h2 : l[i]? = some (some v) := getD_eq_some l i v h
  have h3 : l.take (i + 1) = l.take i ++ [some v] := by
    rw [List.take_succ, h2]; rfl
  rw [h3, sCTP_append_some]


theorem reduceAllGo_zero_none (nw tail : Nat) (shape : Shape)
    (h : shape.getD 0 none = none) :
    reduceAllGo nw shape 0 tail = (nw, 0) := by
  simp only [reduceAllGo, h]

theorem reduceAllGo_zero_some (nw tail v : Nat) (shape : Shape)
    (h : shape.getD 0 none = some v) :
    reduceAllGo nw shape 0 tail =
      if nw ≤ tail * v then (nw, 0) else (tail * v, 0) := by
  simp only [reduceAllGo, h]

theorem reduceAllGo_succ_none (nw tail i : Nat) (shape : Shape)
    (h : shape.getD (i + 1) none = none) :
    reduceAllGo nw shape (i + 1) tail = (tail, i) := by
  simp only [reduceAllGo, h]

theorem reduceAllGo_succ_some (nw tail i v : Nat) (shape : Shape)
    (h : shape.getD (i + 1) none = some v) :
    reduceAllGo nw shape (i + 1) tail =
      if nw ≤ tail * v then (nw, i + 1) else reduceAllGo nw shape i (tail * v) := by
  simp only [reduceAllGo, h]

theorem reduceLastGo_zero_none (nw tail j : Nat) (shape : Shape) (axes : List Int)
    (h : shape.getD 0 none = none) :
    reduceLastGo nw shape axes 0 j tail = (nw, 0) := by
  simp only [reduceLastGo, h]

theorem reduceLastGo_zero_some (nw tail j v : Nat) (shape : Shape) (axes : List Int)
    (h : shape.getD 0 none = some v) :
    reduceLastGo nw shape axes 0 j tail =
      if axes.getD j 0 = (0 : Int) then
        (if nw ≤ tail * v then (nw, 0) else (tail * v, 0))
      else (nw, 0) := by
  simp only [reduceLastGo, h]

theorem reduceLastGo_succ_none (nw tail i j : Nat) (shape : Shape) (axes : List Int)
    (h : shape.getD (i + 1) none = none) :
    reduceLastGo nw shape axes (i + 1) j tail = (tail, i) := by
  simp only [reduceLastGo, h]

theorem reduceLastGo_succ_some (nw tail i j v : Nat) (shape : Shape) (axes : List Int)
    (h : shape.getD (i + 1) none = some v) :
    reduceLastGo nw shape axes (i + 1) j tail =
      if axes.getD j 0 = ((i + 1 : Nat) : Int) then
        (if nw ≤ tail * v then (nw, i + 1)
         else reduceLastGo nw shape axes i (if 0 < j then j - 1 else j) (tail * v))
      else (tail, i) := by
  simp only [reduceLastGo, h]

theorem reduceOtherGo_zero_none (nw tail j : Nat) (shape : Shape) (axes : List Int)
    (h : shape.getD 0 none = none) :
    reduceOtherGo nw shape axes 0 j tail = (nw, 0) := by
  simp only [reduceOtherGo, h]

theorem reduceOtherGo_zero_some (nw tail j v : Nat) (shape : Shape) (axes : List Int)
    (h : shape.getD 0 none = some v) :
    reduceOtherGo nw shape axes 0 j tail =
      if axes.getD j 0 ≠ (0 : Int) then
        (if nw ≤ tail * v then (nw, 0) else (tail * v, 0))
      else (nw, 0) := by
  simp only [reduceOtherGo, h]

theorem reduceOtherGo_succ_none (nw tail i j : Nat) (shape : Shape) (axes : List Int)
    (h : shape.getD (i + 1) none = none) :
    reduceOtherGo nw shape axes (i + 1) j tail = (tail, i) := by
  simp only [reduceOtherGo, h]

theorem reduceOtherGo_succ_some (nw tail i j v : Nat) (shape : Shape) (axes : List Int)
    (h : shape.getD (i + 1) none = some v) :
    reduceOtherGo nw shape axes (i + 1) j tail =
      if axes.getD j 0 ≠ ((i + 1 : Nat) : Int) then
        (if nw ≤ tail * v then (nw, i + 1)
         else reduceOtherGo nw shape axes i (if 0 < j then j - 1 else j) (tail * v))
      else (tail, i) := by
  simp only [reduceOtherGo, h]

theorem reduceAllGo_bound (nw : Nat) (shape : Shape) (hnw : 1 ≤ nw)
    (hpos : ∀ k, some k ∈ shape → 1 ≤ k) :
    ∀ i tail, tail ≤ nw →
      staticContiguousTailProduct shape =
        staticContiguousTailProduct (shape.take (i + 1)) * tail →
      (reduceAllGo nw shape i tail).1 ≤ nw ∧
      ((reduceAllGo nw shape i tail).1 ≤ staticContiguousTailProduct shape ∨
        ((reduceAllGo nw shape i tail).1 = nw ∧
          (reduceAllGo nw shape i tail).2 = 0)) := by
  intro i
  induction i with
  | zero =>
    intro tail htail heq
    cases h0 : shape.getD 0 none with
    | none =>
      rw [reduceAllGo_zero_none nw tail shape h0]
      exact ⟨le_refl nw, Or.inr ⟨rfl, rfl⟩⟩
    | some v =>
      have heq2 : staticContiguousTailProduct shape = tail * v := by
        rw [heq, sCTP_take_succ shape 0 v h0, List.take_zero]
        rw [show staticContiguousTailProduct ([] : Shape) = 1 from rfl]
        rw [Nat.mul_one, Nat.mul_comm]
      rw [reduceAllGo_zero_some nw tail v shape h0]
      by_cases hc : nw ≤ tail * v
      · rw [if_pos hc]
        exact ⟨le_refl nw, Or.inl (by rw [heq2]; exact hc)⟩
      · rw [if_neg hc]
        exact ⟨Nat.le_of_lt (Nat.lt_of_not_le hc), Or.inl (le_of_eq heq2.symm)⟩
  | succ i ih =>
    intro tail htail heq
    cases h0 : shape.getD (i + 1) none with
    | none =>
      rw [reduceAllGo_succ_none nw tail i shape h0]
      refine ⟨htail, Or.inl ?_⟩
      rw [heq]
      exact Nat.le_mul_of_pos_left tail
        (sCTP_pos _ (fun k hk => hpos k (List.take_subset _ _ hk)))
    | some v =>
      have heq2 : staticContiguousTailProduct shape =
          staticContiguousTailProduct (shape.take (i + 1)) * (tail * v) := by
        rw [heq, sCTP_take_succ shape (i + 1) v h0]; ring
      rw [reduceAllGo_succ_some nw tail i v shape h0]
      by_cases hc : nw ≤ tail * v
      · rw [if_pos hc]
        refine ⟨le_refl nw, Or.inl ?_⟩
        rw [heq2]
        exact le_trans hc (Nat.le_mul_of_pos_left _
          (sCTP_pos _ (fun k hk => hpos k (List.take_subset _ _ hk))))
      · rw [if_neg hc]
        exact ih (tail * v) (Nat.le_of_lt (Nat.lt_of_not_le hc)) heq2

theorem reduceLastGo_bound (nw : Nat) (shape : Shape) (axes : List Int)
    (hpos : ∀ k, some k ∈ shape → 1 ≤ k) :
    ∀ i j tail, tail ≤ nw →
      staticContiguousTailProduct shape =
        staticContiguousTailProduct (shape.take (i + 1)) * tail →
      (reduceLastGo nw shape axes i j tail).1 ≤ nw ∧
      ((reduceLastGo nw shape axes i j tail).1 ≤ staticContiguousTailProduct shape ∨
        ((reduceLastGo nw shape axes i j tail).1 = nw ∧
          (reduceLastGo nw shape axes i j tail).2 = 0)) := by
  intro i
  induction i with
  | zero =>
    intro j tail htail heq
    cases h0 : shape.getD 0 none with
    | none =>
      rw [reduceLastGo_zero_none nw tail j shape axes h0]
      exact ⟨le_refl nw, Or.inr ⟨rfl, rfl⟩⟩
    | some v =>
      rw [reduceLastGo_zero_some nw tail j v shape axes h0]
      by_cases ha : axes.getD j 0 = (0 : Int)
      · rw [if_pos ha]
        have heq2 : staticContiguousTailProduct shape = tail * v := by
          rw [heq, sCTP_take_succ shape 0 v h0, List.take_zero]
          rw [show staticContiguousTailProduct ([] : Shape) = 1 from rfl]
          rw [Nat.mul_one, Nat.mul_comm]
        by_cases hc : nw ≤ tail * v
        · rw [if_pos hc]
          exact ⟨le_refl nw, Or.inl (by rw [heq2]; exact hc)⟩
        · rw [if_neg hc]
          exact ⟨Nat.le_of_lt (Nat.lt_of_not_le hc), Or.inl (le_of_eq heq2.symm)⟩
      · rw [if_neg ha]
        exact ⟨le_refl nw, Or.inr ⟨rfl, rfl⟩⟩
  | succ i ih =>
    intro j tail htail heq
    cases h0 : shape.getD (i + 1) none with
    | none =>
      rw [reduceLastGo_succ_none nw tail i j shape axes h0]
      refine ⟨htail, Or.inl ?_⟩
      rw [heq]
      exact Nat.le_mul_of_pos_left tail
        (sCTP_pos _ (fun k hk => hpos k (List.take_subset _ _ hk)))
    | some v =>
      rw [reduceLastGo_succ_some nw tail i j v shape axes h0]
      by_cases ha : axes.getD j 0 = ((i + 1 : Nat) : Int)
      · rw [if_pos ha]
        have heq2 : staticContiguousTailProduct shape =
            staticContiguousTailProduct (shape.take (i + 1)) * (tail * v) := by
          rw [heq, sCTP_take_succ shape (i + 1) v h0]; ring
        by_cases hc : nw ≤ tail * v
        · rw [if_pos hc]
          refine ⟨le_refl nw, Or.inl ?_⟩
          rw [heq2]
          exact le_trans hc (Nat.le_mul_of_pos_left _
            (sCTP_pos _ (fun k hk => hpos k (List.take_subset _ _ hk))))
        · rw [if_neg hc]
          exact ih (if 0 < j then j - 1 else j) (tail * v)
            (Nat.le_of_lt (Nat.lt_of_not_le hc)) heq2
      · rw [if_neg ha]
        refine ⟨htail, Or.inl ?_⟩
        rw [heq]
        exact Nat.le_mul_of_pos_left tail
          (sCTP_pos _ (fun k hk => hpos k (List.take_subset _ _ hk)))

theorem reduceOtherGo_bound (nw : Nat) (shape : Shape) (axes : List Int)
    (hpos : ∀ k, some k ∈ shape → 1 ≤ k) :
    ∀ i j tail, tail ≤ nw →
      staticContiguousTailProduct shape =
        staticContiguousTailProduct (shape.take (i + 1)) * tail →
      (reduceOtherGo nw shape axes i j tail).1 ≤ nw ∧
      ((reduceOtherGo nw shape axes i j tail).1 ≤ staticContiguousTailProduct shape ∨
        ((reduceOtherGo nw shape axes i j tail).1 = nw ∧
          (reduceOtherGo nw shape axes i j tail).2 = 0)) := by
  intro i
  induction i with
  | zero =>
    intro j tail htail heq
    cases h0 : shape.getD 0 none with
    | none =>
      rw [reduceOtherGo_zero_none nw tail j shape axes h0]
      exact ⟨le_refl nw, Or.inr ⟨rfl, rfl⟩⟩
    | some v =>
      rw [reduceOtherGo_zero_some nw tail j v shape axes h0]
      by_cases ha : axes.getD j 0 = (0 : Int)
      · rw [if_neg (not_not_intro ha)]
        exact ⟨le_refl nw, Or.inr ⟨rfl, rfl⟩⟩
      · rw [if_pos ha]
        have heq2 : staticContiguousTailProduct shape = tail * v := by
          rw [heq, sCTP_take_succ shape 0 v h0, List.take_zero]
          rw [show staticContiguousTailProduct ([] : Shape) = 1 from rfl]
          rw [Nat.mul_one, Nat.mul_comm]
        by_cases hc : nw ≤ tail * v
        · rw [if_pos hc]
          exact ⟨le_refl nw, Or.inl (by rw [heq2]; exact hc)⟩
        · rw [if_neg hc]
          exact ⟨Nat.le_of_lt (Nat.lt_of_not_le hc), Or.inl (le_of_eq heq2.symm)⟩
  | succ i ih =>
    intro j tail htail heq
    cases h0 : shape.getD (i + 1) none with
    | none =>
      rw [reduceOtherGo_succ_none nw tail i j shape axes h0]
      refine ⟨htail, Or.inl ?_⟩
      rw [heq]
      exact Nat.le_mul_of_pos_left tail
        (sCTP_pos _ (fun k hk => hpos k (List.take_subset _ _ hk)))
    | some v =>
      rw [reduceOtherGo_succ_some nw tail i j v shape axes h0]
      by_cases ha : axes.getD j 0 = ((i + 1 : Nat) : Int)
      · rw [if_neg (not_not_intro ha)]
        refine ⟨htail, Or.inl ?_⟩
        rw [heq]
        exact Nat.le_mul_of_pos_left tail
          (sCTP_pos _ (fun k hk => hpos k (List.take_subset _ _ hk)))
      · rw [if_pos ha]
        have heq2 : staticContiguousTailProduct shape =
            staticContiguousTailProduct (shape.take (i + 1)) * (tail * v) := by
          rw [heq, sCTP_take_succ shape (i + 1) v h0]; ring
        by_cases hc : nw ≤ tail * v
        · rw [if_pos hc]
          refine ⟨le_refl nw, Or.inl ?_⟩
          rw [heq2]
          exact le_trans hc (Nat.le_mul_of_pos_left _
            (sCTP_pos _ (fun k hk => hpos k (List.take_subset _ _ hk))))
        · rw [if_neg hc]
          exact ih (if 0 < j then j - 1 else j) (tail * v)
            (Nat.le_of_lt (Nat.lt_of_not_le hc)) heq2

/-- Claim C1, amended: for every shape with positive known extents, every axis
list, and every positive natural vector width, the vector_width returned by
`VectorWidthAndFuseDimForReduce` is at most the natural width; and it is at
most the statically-known contiguous tail product except when the walk stops
at the outermost dimension and falls back to `(natural_width, 0)`. -/
theorem c1_vector_width_bounds (nw : Nat) (axes : List Int) (shape : Shape)
    (hnw : 1 ≤ nw) (hpos : ∀ k, some k ∈ shape → 1 ≤ k) :
    (VectorWidthAndFuseDimForReduce nw axes shape).1 ≤ nw ∧
    ((VectorWidthAndFuseDimForReduce nw axes shape).1 ≤
        staticContiguousTailProduct shape ∨
      ((VectorWidthAndFuseDimForReduce nw axes shape).1 = nw ∧
        (VectorWidthAndFuseDimForReduce nw axes shape).2 = 0)) := by
  unfold VectorWidthAndFuseDimForReduce
  by_cases h0 : shape.length = 0
  · rw [if_pos h0]
    exact ⟨hnw, Or.inl (sCTP_pos shape hpos)⟩
  · rw [if_neg h0]
    have hlen : 0 < shape.length := Nat.pos_of_ne_zero h0
    have heq : staticContiguousTailProduct shape =
        staticContiguousTailProduct (shape.take (shape.length - 1 + 1)) * 1 := by
      rw [Nat.sub_add_cancel hlen, List.take_length, Nat.mul_one]
    by_cases h1 : axes.length = 0
    · rw [if_pos h1]
      exact reduceAllGo_bound nw shape hnw hpos _ 1 hnw heq
    · rw [if_neg h1]
      by_cases h2 : axes.getLastD 0 = ((shape.length - 1 : Nat) : Int)
      · rw [if_pos h2]
        exact reduceLastGo_bound nw shape axes hpos _ _ 1 hnw heq
      · rw [if_neg h2]
        exact reduceOtherGo_bound nw shape axes hpos _ _ 1 hnw heq

/-- Claim C1, counterexample: shape [2, 3], axes [0], natural width 8 — all
extents static — yields vector_width 8, which exceeds the statically-known
contiguous tail product 6, refuting the claim as stated. -/
theorem c1_counterexample :
    ¬ ((VectorWidthAndFuseDimForReduce 8 [0] [some 2, some 3]).1 ≤
        staticContiguousTailProduct [some 2, some 3]) := by decide

/-- Witness for `c1_vector_width_bounds` at a concrete input. -/
theorem c1_witness :
    (VectorWidthAndFuseDimForReduce 8 [] [some 4]).1 ≤ 8 ∧
    ((VectorWidthAndFuseDimForReduce 8 [] [some 4]).1 ≤
        staticContiguousTailProduct [some 4] ∨
      ((VectorWidthAndFuseDimForReduce 8 [] [some 4]).1 = 8 ∧
        (VectorWidthAndFuseDimForReduce 8 [] [some 4]).2 = 0)) :=
  c1_vector_width_bounds 8 [] [some 4] (by decide)
    (fun k hk => by simp only [List.mem_singleton, Option.some.injEq] at hk; omega)

/-- Claim C2, amended: in the reduce-all walk, meeting an unknown-extent
dimension at any index above 0 returns `(tail_size, index - 1)` — the product
accumulated so far, not the natural width; in particular shape
[8, unknown, 4] with natural width 8 and empty axes yields `(4, 0)`. -/
theorem c2_reduce_all_unknown_stop (nw i tail : Nat) (shape : Shape)
    (h : shape.getD (i + 1) none = none) :
    reduceAllGo nw shape (i + 1) tail = (tail, i) ∧
    VectorWidthAndFuseDimForReduce 8 [] [some 8, none, some 4] = (4, 0) :=
  ⟨reduceAllGo_succ_none nw tail i shape h, by decide⟩

/-- Claim C2, counterexample: shape [8, unknown, 4] with natural width 8 and
empty axes does not return `(natural_width, 0) = (8, 0)`. -/
theorem c2_counterexample :
    VectorWidthAndFuseDimForReduce 8 [] [some 8, none, some 4] ≠ (8, 0) := by
  decide

/-- Witness for `c2_reduce_all_unknown_stop` at a concrete input. -/
theorem c2_witness :
    reduceAllGo 8 [some 8, none, some 4] (0 + 1) 4 = (4, 0) ∧
    VectorWidthAndFuseDimForReduce 8 [] [some 8, none, some 4] = (4, 0) :=
  c2_reduce_all_unknown_stop 8 0 4 [some 8, none, some 4] (by decide)

/-- Claim C3, counterexample: for the reduce-last pattern with static shape
[4, 8], axes [1] and natural width 8, the plan is not
(vector_width 8, fuse_dim 0, last_dim_aligned true). -/
theorem c3_counterexample :
    FuncReduceVPlan 8 [1] [some 4, some 8] ≠ (8, 0, true) := by decide

/-- Claim C3, amended: that input yields vector_width 8, fuse_dim 1 (the cap
`tail_size >= natural_width` fires at the innermost index, i = 1),
last_dim_aligned true. -/
theorem c3_reduce_last_plan :
    FuncReduceVPlan 8 [1] [some 4, some 8] = (8, 1, true) := by decide

/-- Claim C8: `last_dim_aligned` is true iff the innermost dimension's extent
is statically known and an exact multiple of the chosen vector_width; in
particular it is false whenever that extent is symbolic. -/
theorem c8_last_dim_aligned_iff (nw : Nat) (axesAttr : List Int) (shape : Shape) :
    (FuncReduceVPlan nw axesAttr shape).2.2 = true ↔
    (∃ v, shape.getLastD none = some v ∧
      v % (FuncReduceVPlan nw axesAttr shape).1 = 0) := by
  unfold FuncReduceVPlan
  cases h : shape.getLastD none with
  | none => simp [h]
  | some v => simp [h]

/-- Claim C9: a rank-0 (scalar) shape yields vector_width 1 and fuse_dim 0
for every natural width and every axes list. -/
theorem c9_rank_zero (nw : Nat) (axes : List Int) :
    VectorWidthAndFuseDimForReduce nw axes [] = (1, 0) := rfl

/-- Claim C4, counterexample: an explicit configuration string that is not one
of the recognized profiles does not fail construction — it resolves to a
generic `CodeGenTarget` built from the string. -/
theorem c4_counterexample :
    resolveCodeGenTarget (some "some_unknown_profile") false false =
      .ok (.generic "some_unknown_profile") := by rfl

/-- Claim C4, amended: construction fails fatally exactly when the explicit
configuration string is the stackvm profile; avx2/avx512 yield their
descriptors, llvm auto-detects from the probed CPU feature bits, and any
other non-empty string yields a generic target descriptor. -/
theorem c4_target_resolution (s : String) (h512 h2 : Bool) (hs : s ≠ "") :
    (StatusIsOK (resolveCodeGenTarget (some s) h512 h2) = false ↔
      s = stackvm_target_str) ∧
    resolveCodeGenTarget (some "avx2") h512 h2 = .ok .avx2 ∧
    resolveCodeGenTarget (some "avx512") h512 h2 = .ok .avx512 ∧
    resolveCodeGenTarget (some llvm_target_str) h512 h2 =
      .ok (if h512 then .avx512
           else if h2 then .avx2
           else .baselineX86 llvm_target_str) := by
  refine ⟨?_, by cases h512 <;> cases h2 <;> rfl,
    by cases h512 <;> cases h2 <;> rfl, by cases h512 <;> cases h2 <;> rfl⟩
  unfold resolveCodeGenTarget
  simp only [Option.getD_some]
  rw [if_neg hs]
  by_cases h1 : s = llvm_target_str
  · rw [if_pos h1]
    constructor
    · intro h; simp [StatusIsOK] at h
    · intro h; exact absurd (h1.symm.trans h) (by decide)
  · rw [if_neg h1]
    by_cases h2a : s = "avx2"
    · rw [if_pos h2a]
      constructor
      · intro h; simp [StatusIsOK] at h
      · intro h; exact absurd (h2a.symm.trans h) (by decide)
    · rw [if_neg h2a]
      by_cases h3a : s = "avx512"
      · rw [if_pos h3a]
        constructor
        · intro h; simp [StatusIsOK] at h
        · intro h; exact absurd (h3a.symm.trans h) (by decide)
      · rw [if_neg h3a]
        by_cases h4a : s = stackvm_target_str
        · rw [if_neg (not_not_intro h4a)]
          exact ⟨fun _ => h4a, fun _ => rfl⟩
        · rw [if_pos h4a]
          constructor
          · intro h; simp [StatusIsOK] at h
          · intro h; exact absurd h h4a

/-- Witness for `c4_target_resolution` at the concrete input "stackvm". -/
theorem c4_witness :
    (StatusIsOK (resolveCodeGenTarget (some "stackvm") false false) = false ↔
      "stackvm" = stackvm_target_str) ∧
    resolveCodeGenTarget (some "avx2") false false = .ok .avx2 ∧
    resolveCodeGenTarget (some "avx512") false false = .ok .avx512 ∧
    resolveCodeGenTarget (some llvm_target_str) false false =
      .ok (if false then .avx512
           else if false then .avx2
           else .baselineX86 llvm_target_str) :=
  c4_target_resolution "stackvm" false false (by decide)

/-- Claim C5: lifting a constant initializer is idempotent — if the name is
already present in the store, `SaveInitializer` returns success and leaves
the store (hence the stored bytes) unchanged, for any tensor proto. -/
theorem c5_save_initializer_idempotent (store : List (String × TensorValue))
    (name : String) (proto : TensorProto)
    (h : (lookupName store name).isSome = true) :
    SaveInitializer store name proto = .ok store := by
  unfold SaveInitializer
  rw [if_pos h]

/-- Witness for `c5_save_initializer_idempotent`: re-lifting the present name
"w" with a conflicting, even corrupt, proto (unsupported string dtype) still
returns the unchanged store. -/
theorem c5_witness :
    SaveInitializer [("w", ⟨1, [1], .typed [0]⟩)] "w" ⟨8, [2], .raw []⟩ =
      .ok [("w", ⟨1, [1], .typed [0]⟩)] :=
  c5_save_initializer_idempotent [("w", ⟨1, [1], .typed [0]⟩)] "w"
    ⟨8, [2], .raw []⟩ (by decide)

/-- Claim C6: when whole-graph shape inference fails, `GetCapability` returns
the empty capability report as a normal (non-error, non-fatal) result and
leaves the provider state untouched. -/
theorem c6_shape_inference_failure_declines (st : ProviderState)
    (g : List (String × Nat)) (f : List (String × TensorProto))
    (p : List (List Nat)) :
    GetCapability st false g f p = .ok (st, []) := rfl

/-- Claim C7: the thread-local subgraph-id counter starts at 0, every
`Compile` pass ends by resetting it to 0, so two sequential passes on the
same provider instance and thread each observe counter 0 at their start, and
the second pass's subgraph ids again count from 0. -/
theorem c7_counter_restarts (n1 n2 : Nat) :
    counterInit = 0 ∧
    (CompilePass counterInit n1).2 = 0 ∧
    (CompilePass (CompilePass counterInit n1).2 n2).1 = List.range n2 := by
  refine ⟨rfl, rfl, ?_⟩
  simp [CompilePass, assignSubgraphIds, counterInit]

theorem lookupName_append_left {β : Type} (l l2 : List (String × β)) (d : String)
    (v : β) (h : lookupName l d = some v) : lookupName (l ++ l2) d = some v := by
  induction l with
  | nil => simp [lookupName] at h
  | cons a t ih =>
    obtain ⟨k, b⟩ := a
    by_cases hd : d = k
    · simp only [lookupName, if_pos hd] at h
      simp only [List.cons_append, lookupName, if_pos hd]
      exact h
    · simp only [lookupName, if_neg hd] at h
      simp only [List.cons_append, lookupName, if_neg hd]
      exact ih h

theorem updateDomainVersions_preserves (d : String) (v : Nat) :
    ∀ (g dv dv2 : List (String × Nat)), lookupName dv d = some v →
      updateDomainVersions dv g = .ok dv2 → lookupName dv2 d = some v
  | [], dv, dv2, hv, hok => by
    simp only [updateDomainVersions] at hok
    injection hok with hh
    rw [← hh]
    exact hv
  | (d0, v0) :: rest, dv, dv2, hv, hok => by
    cases h0 : lookupName dv d0 with
    | none =>
      simp only [updateDomainVersions, h0] at hok
      exact updateDomainVersions_preserves d v rest (dv ++ [(d0, v0)]) dv2
        (lookupName_append_left dv [(d0, v0)] d v hv) hok
    | some vx =>
      simp only [updateDomainVersions, h0] at hok
      by_cases he : vx = v0
      · rw [if_pos he] at hok
        exact updateDomainVersions_preserves d v rest dv dv2 hv hok
      · rw [if_neg he] at hok
        exact Except.noConfusion hok

theorem updateDomainVersions_mismatch_fails (d : String) (v v2 : Nat)
    (hne : v2 ≠ v) :
    ∀ (g dv : List (String × Nat)), lookupName dv d = some v → (d, v2) ∈ g →
      StatusIsOK (updateDomainVersions dv g) = false
  | [], _, _, hmem => absurd hmem (List.not_mem_nil _)
  | (d0, v0) :: rest, dv, hv, hmem => by
    cases h0 : lookupName dv d0 with
    | none =>
      simp only [updateDomainVersions, h0]
      rcases List.mem_cons.mp hmem with heq | hrest
      · injection heq with hd hvv
        rw [← hd, hv] at h0
        exact Option.noConfusion h0
      · exact updateDomainVersions_mismatch_fails d v v2 hne rest (dv ++ [(d0, v0)])
          (lookupName_append_left dv [(d0, v0)] d v hv) hrest
    | some vx =>
      simp only [updateDomainVersions, h0]
      by_cases he : vx = v0
      · rw [if_pos he]
        rcases List.mem_cons.mp hmem with heq | hrest
        · injection heq with hd hvv
          rw [← hd] at h0
          have hvvx : vx = v := Option.some.inj (h0.symm.trans hv)
          exact absurd (hvv.trans (he.symm.trans hvvx)) hne
        · exact updateDomainVersions_mismatch_fails d v v2 hne rest dv hv hrest
      · rw [if_neg he]
        rfl

theorem GetCapability_shape_ok (st : ProviderState)
    (g : List (String × Nat)) (f : List (String × TensorProto))
    (p : List (List Nat)) :
    GetCapability st true g f p =
      match updateDomainVersions st.domain_versions g with
      | .error e => .error e
      | .ok dv =>
        match f.foldlM (fun s q => SaveInitializer s q.1 q.2)
            st.constant_initializers with
        | .error e => .error e
        | .ok store => .ok (⟨dv, store⟩, p) := rfl

/-- Claim C10: across `GetCapability` calls on one provider instance, a domain
keeps the first opset version recorded for it — any successful later call
preserves the mapping, and a graph presenting a different version for that
domain makes the call fail the `ORT_ENFORCE` rather than silently overwrite
the mapping. -/
theorem c10_domain_version_first_write_wins (st : ProviderState)
    (g : List (String × Nat)) (f : List (String × TensorProto))
    (p : List (List Nat)) (d : String) (v v2 : Nat)
    (hv : lookupName st.domain_versions d = some v) :
    (∀ st2 r, GetCapability st true g f p = .ok (st2, r) →
        lookupName st2.domain_versions d = some v) ∧
    ((d, v2) ∈ g → v2 ≠ v →
      StatusIsOK (GetCapability st true g f p) = false) := by
  constructor
  · intro st2 r hok
    rw [GetCapability_shape_ok] at hok
    cases hu : updateDomainVersions st.domain_versions g with
    | error e => rw [hu] at hok; exact Except.noConfusion hok
    | ok dv =>
      rw [hu] at hok
      have hdv : lookupName dv d = some v :=
        updateDomainVersions_preserves d v g st.domain_versions dv hv hu
      cases hf : f.foldlM (fun s q => SaveInitializer s q.1 q.2)
          st.constant_initializers with
      | error e => rw [hf] at hok; exact Except.noConfusion hok
      | ok store =>
        rw [hf] at hok
        injection hok with hpair
        have h1 : st2 = ⟨dv, store⟩ := congrArg Prod.fst hpair.symm
        rw [h1]
        exact hdv
  · intro hmem hne
    rw [GetCapability_shape_ok]
    have hfail : StatusIsOK (updateDomainVersions st.domain_versions g) = false :=
      updateDomainVersions_mismatch_fails d v v2 hne g st.domain_versions hv hmem
    cases hu : updateDomainVersions st.domain_versions g with
    | error e => rfl
    | ok dv => rw [hu] at hfail; exact Bool.noConfusion hfail

/-- Witness for `c10_domain_version_first_write_wins` at a concrete input. -/
theorem c10_witness :
    (∀ st2 r,
        GetCapability ⟨[("", 9)], []⟩ true [("", 10)] [] [] = .ok (st2, r) →
          lookupName st2.domain_versions "" = some 9) ∧
    (("", 10) ∈ [("", 10)] → 10 ≠ 9 →
      StatusIsOK (GetCapability ⟨[("", 9)], []⟩ true [("", 10)] [] []) = false) :=
  c10_domain_version_first_write_wins ⟨[("", 9)], []⟩ [("", 10)] [] [] "" 9 10
    (by decide)
